import Mathlib

/-!
Verification of the batch document-to-Markdown conversion orchestrator
(`converter.py`): file discovery, output-path resolution with collision
avoidance, sequential per-file conversion with failure isolation, and the
progress/summary protocol.

The embedding models filesystem paths as lists of name components, and a
filesystem state as a finite list of (path, kind) entries.  The external
Docling converter is an oracle parameter `conv : Path → Path → Except String
Unit` (success, or a failure carrying the exception message); on success the
Markdown output file is written to the resolved output path.
-/

/-- A filesystem path, as its list of name components (`Path('a/b/c')` is
`["a","b","c"]`; `Path('.')` is `[]`). -/
abbrev FsPath := List String

namespace FsPath

/-- Final path component (`Path.name` in the source); `""` for the empty path. -/
def name (p : FsPath) : String := (p.getLast?).getD ""

/-- Rendering of a path as the string the source would print (`str(path)`). -/
def render (p : FsPath) : String := String.intercalate "/" p

/-- Index of the last `'.'` in a list of characters, if any. -/
def lastDotPos (cs : List Char) : Option Nat :=
  match cs.reverse.findIdx? (· == '.') with
  | none => none
  | some j => some (cs.length - 1 - j)

/-- Split a file name into `(stem, suffix)` following Python's `pathlib`
semantics: the suffix is the part from the last dot on, but only when that
dot is neither the first nor the last character of the name. -/
def sfxSplit (s : String) : String × String :=
  let cs := s.data
  match lastDotPos cs with
  | some i =>
      if 0 < i ∧ i < cs.length - 1 then (⟨cs.take i⟩, ⟨cs.drop i⟩) else (s, "")
  | none => (s, "")

/-- Model of `path.stem` of the final component. -/
def stem (p : FsPath) : String := (sfxSplit p.name).1

/-- Model of `path.suffix` of the final component. -/
def suffix (p : FsPath) : String := (sfxSplit p.name).2

/-- Model of `name.with_suffix('.md')` applied to a bare file name: the stem with the
extension replaced by `.md`. -/
def withMdName (s : String) : String := (sfxSplit s).1 ++ ".md"

/-- Model of `path.with_suffix('.md')`: replace the final component's extension. -/
def withMd (p : FsPath) : FsPath := p.dropLast ++ [withMdName p.name]

end FsPath

/-- Kind of a filesystem entry: a regular file, a directory, or something
else (named pipe, device, dangling symlink, ...). -/
inductive EntryKind where
  | file : EntryKind
  | dir : EntryKind
  | other : EntryKind
deriving DecidableEq, Repr

/-- A filesystem state: the finite list of existing entries. -/
structure FS where
  entries : List (FsPath × EntryKind)
deriving DecidableEq, Repr

namespace FS

/-- Kind of the entry at `p`, if any. -/
def kindOf (fs : FS) (p : FsPath) : Option EntryKind :=
  (fs.entries.find? (fun e => e.1 == p)).map (·.2)

/-- Model of `p.exists()`: some entry (of any kind) is present at `p`. -/
def existsPath (fs : FS) (p : FsPath) : Bool :=
  fs.entries.any (fun e => e.1 == p)

/-- Model of `p.is_file()`: a regular file is present at `p`. -/
def isFile (fs : FS) (p : FsPath) : Bool :=
  fs.kindOf p == some EntryKind.file

/-- Model of `p.is_dir()`: a directory is present at `p`. -/
def isDir (fs : FS) (p : FsPath) : Bool :=
  fs.kindOf p == some EntryKind.dir

/-- The nonempty initial segments of `d`, i.e. `d` and all its ancestors
other than the root. -/
def ancestorsOf (d : FsPath) : List FsPath :=
  (List.range d.length).map (fun i => d.take (i + 1))

/-- Model of `d.mkdir(parents=True, exist_ok=True)`: create `d` and every missing
ancestor as directories. -/
def mkdirParents (fs : FS) (d : FsPath) : FS :=
  ⟨fs.entries ++ ((ancestorsOf d).filter (fun q => !(fs.existsPath q))).map
      (fun q => (q, EntryKind.dir))⟩

/-- Model of `p.write_text(...)`: record a regular file at `p`. -/
def writeFile (fs : FS) (p : FsPath) : FS :=
  ⟨fs.entries ++ [(p, EntryKind.file)]⟩

/-- Model of `d.rglob('*')`: every entry strictly below `d`, in enumeration order. -/
def rglob (fs : FS) (d : FsPath) : List FsPath :=
  (fs.entries.map (·.1)).filter (fun q => d.isPrefixOf q && !(q == d))

end FS

section ReprInjective

/-! `Nat.repr` is injective: needed to show distinctness of the candidate
paths `stem_1.md, stem_2.md, ...` tried by the collision-avoidance loop. -/

/-- Decimal value of a digit string, used to invert `Nat.toDigits 10`. -/
def digitsVal (cs : List Char) : Nat :=
  cs.foldl (fun a c => 10 * a + (c.toNat - 48)) 0

theorem digitChar_toNat_eq : ∀ d : Nat, d < 10 → (Nat.digitChar d).toNat = 48 + d := by
  decide

theorem toDigitsCore_append (b : Nat) :
    ∀ fuel n ds, Nat.toDigitsCore b fuel n ds = Nat.toDigitsCore b fuel n [] ++ ds := by
  intro fuel
  induction fuel with
  | zero => intro n ds; simp [Nat.toDigitsCore]
  | succ f ih =>
    intro n ds
    simp only [Nat.toDigitsCore]
    by_cases h : n / b = 0
    · simp [h]
    · simp only [h, if_false]
      rw [ih (n / b) (Nat.digitChar (n % b) :: ds), ih (n / b) [Nat.digitChar (n % b)]]
      simp

theorem toDigitsCore_fuel_irrel (b : Nat) (hb : 1 < b) :
    ∀ f₁ f₂ n ds, n < f₁ → n < f₂ →
      Nat.toDigitsCore b f₁ n ds = Nat.toDigitsCore b f₂ n ds := by
  intro f₁
  induction f₁ with
  | zero => intro f₂ n ds h1; omega
  | succ f ih =>
    intro f₂ n ds h1 h2
    cases f₂ with
    | zero => omega
    | succ g =>
      simp only [Nat.toDigitsCore]
      by_cases h : n / b = 0
      · simp [h]
      · simp only [h, if_false]
        have hn : 0 < n := by
          rcases Nat.eq_zero_or_pos n with h0 | h0
          · exfalso; apply h; rw [h0]; exact Nat.zero_div b
          · exact h0
        have hlt : n / b < n := Nat.div_lt_self hn hb
        exact ih g (n / b) _ (by omega) (by omega)

theorem digitsVal_toDigits (n : Nat) : digitsVal (Nat.toDigits 10 n) = n := by
  induction n using Nat.strong_induction_on with
  | _ n ih =>
    by_cases h : n / 10 = 0
    · have hn : n < 10 := by omega
      simp only [Nat.toDigits, Nat.toDigitsCore, h, if_true]
      simp only [digitsVal, List.foldl]
      have := digitChar_toNat_eq (n % 10) (Nat.mod_lt n (by omega))
      omega
    · have hn : 0 < n := by
        rcases Nat.eq_zero_or_pos n with h0 | h0
        · exfalso; apply h; rw [h0]
        · exact h0
      have hdiv : n / 10 < n := Nat.div_lt_self hn (by omega)
      simp only [Nat.toDigits, Nat.toDigitsCore, h, if_false]
      rw [toDigitsCore_append 10 n (n / 10) [Nat.digitChar (n % 10)]]
      rw [toDigitsCore_fuel_irrel 10 (by omega) n (n / 10 + 1) (n / 10) []
        (by omega) (by omega)]
      have hval : digitsVal (Nat.toDigits 10 (n / 10) ++ [Nat.digitChar (n % 10)])
          = 10 * digitsVal (Nat.toDigits 10 (n / 10)) + ((Nat.digitChar (n % 10)).toNat - 48) := by
        simp [digitsVal, List.foldl_append]
      have hfold : Nat.toDigitsCore 10 (n / 10 + 1) (n / 10) [] = Nat.toDigits 10 (n / 10) := rfl
      rw [hfold, hval, ih (n / 10) hdiv]
      have := digitChar_toNat_eq (n % 10) (Nat.mod_lt n (by omega))
      omega

theorem natRepr_inj : ∀ m n : Nat, Nat.repr m = Nat.repr n → m = n := by
  intro m n h
  have hd : Nat.toDigits 10 m = Nat.toDigits 10 n := by
    have := congrArg String.data h
    simpa [Nat.repr, List.asString] using this
  have := congrArg digitsVal hd
  rwa [digitsVal_toDigits, digitsVal_toDigits] at this

end ReprInjective

/-- The supported extension set from the source (membership is all that is
ever used of it). -/
def SUPPORTED_EXTENSIONS : List String :=
  [".pdf", ".docx", ".pptx", ".xlsx", ".html", ".htm",
   ".png", ".jpg", ".jpeg", ".gif", ".bmp", ".tiff", ".webp"]

/-- Model of `path.suffix.lower()`: ASCII lowercasing of the extension. -/
def lowerString (s : String) : String := ⟨s.data.map Char.toLower⟩

/-- Model of the membership test `path.suffix.lower() in SUPPORTED_EXTENSIONS`. -/
def isSupported (p : FsPath) : Bool :=
  SUPPORTED_EXTENSIONS.contains (lowerString (FsPath.suffix p))

/-- One line of the JSON status protocol, with the exact field set of
`emit_status` (absent arguments default to `""` / `0`). -/
structure ProgressEvent where
  status : String
  message : String
  file : String
  progress : Nat
  total : Nat
  error : String
deriving DecidableEq, Repr

/-- Event `emit_status("warning", f"Unsupported file format: {path.suffix}", str(path))`. -/
def unsupportedEvent (p : FsPath) : ProgressEvent :=
  ⟨"warning", "Unsupported file format: " ++ FsPath.suffix p, FsPath.render p, 0, 0, ""⟩

/-- Event `emit_status("error", f"Path does not exist: {input_path}", input_path)`. -/
def missingEvent (p : FsPath) : ProgressEvent :=
  ⟨"error", "Path does not exist: " ++ FsPath.render p, FsPath.render p, 0, 0, ""⟩

/-- The candidate tried by the collision loop at counter value `k`:
`parent / f"{base}_{counter}{ext}"`. -/
def suffixedPath (parent : FsPath) (base ext : String) (k : Nat) : FsPath :=
  parent ++ [base ++ "_" ++ Nat.repr k ++ ext]

/-- The `while True` loop of `get_unique_output_path`, with an explicit
recursion bound.  The bound used at the call site, `fs.entries.length + 1`,
is proved sufficient (`uniqueLoop_no_fuel_exhaustion`), so the fuel-exhausted
branch is unreachable and the function computes exactly what the unbounded
source loop computes. -/
def uniqueLoop (fs : FS) (parent : FsPath) (base ext : String) : Nat → Nat → FsPath
  | 0, c => suffixedPath parent base ext c
  | fuel + 1, c =>
      if fs.existsPath (suffixedPath parent base ext c) then
        uniqueLoop fs parent base ext fuel (c + 1)
      else
        suffixedPath parent base ext c

/-- Model of `get_unique_output_path`: return the path unchanged if nothing exists
there, else append `_1`, `_2`, ... before the extension until a free name is
found. -/
def get_unique_output_path (fs : FS) (output_path : FsPath) : FsPath :=
  if fs.existsPath output_path then
    uniqueLoop fs output_path.dropLast (FsPath.stem output_path)
      (FsPath.suffix output_path) (fs.entries.length + 1) 1
  else
    output_path

/-- The body of the `collect_files` loop for a single input path. -/
def collectOne (fs : FS) (p : FsPath) : List FsPath × List ProgressEvent :=
  if fs.isFile p then
    if isSupported p then ([p], [])
    else ([], [unsupportedEvent p])
  else if fs.isDir p then
    ((fs.rglob p).filter (fun q => fs.isFile q && isSupported q), [])
  else
    ([], [missingEvent p])

/-- The accumulating loop of `collect_files`. -/
def collectLoop (fs : FS) : List FsPath → List FsPath → List ProgressEvent →
    List FsPath × List ProgressEvent
  | [], files, events => (files, events)
  | p :: rest, files, events =>
      let r := collectOne fs p
      collectLoop fs rest (files ++ r.1) (events ++ r.2)

/-- Model of `collect_files`: collect all files to convert from the input paths. -/
def collect_files (fs : FS) (input_paths : List FsPath) :
    List FsPath × List ProgressEvent :=
  collectLoop fs input_paths [] []

/-- The `try/except ValueError` block of `get_output_path`: the candidate
destination before directory creation and collision resolution.  The `try`
branch applies when `relative_to` succeeds with a nonempty relative path
(`with_suffix` on `Path('.')` also raises `ValueError`); otherwise only the
file's base name is used. -/
def outputCandidate (input_file input_base output_dir : FsPath) : FsPath :=
  if input_base.isPrefixOf input_file && !(input_base == input_file) then
    output_dir ++ FsPath.withMd (input_file.drop input_base.length)
  else
    output_dir ++ [FsPath.withMdName (FsPath.name input_file)]

/-- Model of `get_output_path`: map a discovered file to its destination, preserving
the directory structure below `input_base`, creating parent directories, and
resolving collisions.  Returns the resolved path together with the
filesystem state after the `mkdir`. -/
def get_output_path (fs : FS) (input_file input_base output_dir : FsPath) :
    FsPath × FS :=
  let output_path := outputCandidate input_file input_base output_dir
  let fs1 := fs.mkdirParents output_path.dropLast
  (get_unique_output_path fs1 output_path, fs1)

/-- Model of `convert_file`: invoke the external converter oracle; on success write
the Markdown file and return `true`, on failure emit an `error` event and
return `false`.  Returns (success flag, new filesystem, emitted events). -/
def convert_file (conv : FsPath → FsPath → Except String Unit) (fs : FS)
    (input_file output_file : FsPath) : Bool × FS × List ProgressEvent :=
  match conv input_file output_file with
  | Except.ok _ => (true, fs.writeFile output_file, [])
  | Except.error e =>
      (false, fs, [⟨"error", e, FsPath.render input_file, 0, 0, e⟩])

/-- One per-file conversion outcome; `output = none` models the empty string
recorded for `"output"` on failure. -/
structure ConversionResult where
  input : FsPath
  output : Option FsPath
  success : Bool
deriving DecidableEq, Repr

/-- The terminal summary record. -/
structure BatchSummary where
  successful : Nat
  failed : Nat
  total : Nat
  results : List ConversionResult
deriving DecidableEq, Repr

/-- Mutable state of the conversion loop in `main`. -/
structure LoopState where
  successful : Nat
  failed : Nat
  results : List ConversionResult
  events : List ProgressEvent
  fs : FS
deriving DecidableEq, Repr

/-- Event `emit_status("converting", f"Converting: {input_file.name}", ...)`. -/
def convertingEvent (f : FsPath) (idx total : Nat) : ProgressEvent :=
  ⟨"converting", "Converting: " ++ FsPath.name f, FsPath.render f, idx, total, ""⟩

/-- Event `emit_status("converted", f"Converted: {input_file.name}", ...)`. -/
def convertedEvent (f : FsPath) (idx total : Nat) : ProgressEvent :=
  ⟨"converted", "Converted: " ++ FsPath.name f, FsPath.render f, idx, total, ""⟩

/-- The `for idx, input_file in enumerate(files, 1)` loop of `main`. -/
def processLoop (conv : FsPath → FsPath → Except String Unit)
    (input_base output_dir : FsPath) (total : Nat) :
    List FsPath → Nat → LoopState → LoopState
  | [], _, st => st
  | f :: rest, idx, st =>
      let ev1 := convertingEvent f idx total
      let r := get_output_path st.fs f input_base output_dir
      let c := convert_file conv r.2 f r.1
      if c.1 then
        processLoop conv input_base output_dir total rest (idx + 1)
          { successful := st.successful + 1
            failed := st.failed
            results := st.results ++ [⟨f, some r.1, true⟩]
            events := st.events ++ [ev1] ++ c.2.2 ++ [convertedEvent f idx total]
            fs := c.2.1 }
      else
        processLoop conv input_base output_dir total rest (idx + 1)
          { successful := st.successful
            failed := st.failed + 1
            results := st.results ++ [⟨f, none, false⟩]
            events := st.events ++ [ev1] ++ c.2.2
            fs := c.2.1 }

/-- Determination of `input_base` in `main`, including the dead
`Path('.')` fallback of the source's conditional expression. -/
def computeInputBase (fs : FS) (inputs files : List FsPath) : FsPath :=
  if inputs.length = 1 && fs.isDir (inputs.headD []) then
    inputs.headD []
  else
    match files with
    | f :: _ => f.dropLast
    | [] => []

/-- Outcome of a whole run of `main`: the emitted progress events, the
terminal summary (`none` when the run exited without one), the exit code,
and the final filesystem state. -/
structure RunOutcome where
  events : List ProgressEvent
  summary : Option BatchSummary
  exitCode : Nat
  fs : FS
deriving DecidableEq, Repr

/-- Event `emit_status("starting", "Collecting files...")`. -/
def startingEvent : ProgressEvent := ⟨"starting", "Collecting files...", "", 0, 0, ""⟩

/-- The fatal empty-batch event emitted just before `sys.exit(1)`. -/
def noFilesEvent : ProgressEvent :=
  ⟨"error", "No supported files found", "", 0, 0, "No supported files found"⟩

/-- Event `emit_status("ready", f"Found {total} file(s) to convert", total=total)`. -/
def readyEvent (total : Nat) : ProgressEvent :=
  ⟨"ready", "Found " ++ Nat.repr total ++ " file(s) to convert", "", 0, total, ""⟩

/-- The body of `main` (the name `main` is reserved in Lean): create the output directory, discover files, exit with status 1
if none were found, otherwise convert each file sequentially and emit the
terminal summary. -/
def mainRun (conv : FsPath → FsPath → Except String Unit) (inputs : List FsPath)
    (outputArg : FsPath) (fs0 : FS) : RunOutcome :=
  let fs1 := fs0.mkdirParents outputArg
  let col := collect_files fs1 inputs
  match col.1 with
  | [] =>
      { events := [startingEvent] ++ col.2 ++ [noFilesEvent]
        summary := none
        exitCode := 1
        fs := fs1 }
  | _ :: _ =>
      let files := col.1
      let total := files.length
      let input_base := computeInputBase fs1 inputs files
      let st := processLoop conv input_base outputArg total files 1
        ⟨0, 0, [], [], fs1⟩
      { events := [startingEvent] ++ col.2 ++ [readyEvent total] ++ st.events
        summary := some ⟨st.successful, st.failed, total, st.results⟩
        exitCode := 0
        fs := st.fs }

/-! ### Collision-avoidance loop: correctness and termination -/

theorem existsPath_iff_mem (fs : FS) (p : FsPath) :
    fs.existsPath p = true ↔ p ∈ fs.entries.map Prod.fst := by
  simp only [FS.existsPath, List.any_eq_true, List.mem_map]
  constructor
  · rintro ⟨e, he, hbe⟩
    exact ⟨e, he, beq_iff_eq.mp hbe⟩
  · rintro ⟨e, he, hq⟩
    exact ⟨e, he, beq_iff_eq.mpr hq⟩

theorem suffixedPath_inj (parent : FsPath) (base ext : String) :
    ∀ j k, suffixedPath parent base ext j = suffixedPath parent base ext k → j = k := by
  intro j k h
  have h1 : base ++ "_" ++ Nat.repr j ++ ext = base ++ "_" ++ Nat.repr k ++ ext := by
    have := List.append_cancel_left h
    simpa using this
  have h2 : (Nat.repr j).data = (Nat.repr k).data := by
    have hd := congrArg String.data h1
    simp only [String.data_append] at hd
    exact List.append_cancel_left (List.append_cancel_right hd)
  exact natRepr_inj j k (String.ext h2)

theorem exists_free_suffixed (fs : FS) (parent : FsPath) (base ext : String) (c : Nat) :
    ∃ j, c ≤ j ∧ j < c + (fs.entries.length + 1) ∧
      fs.existsPath (suffixedPath parent base ext j) = false := by
  by_contra hall
  push_neg at hall
  have hex : ∀ j, c ≤ j → j < c + (fs.entries.length + 1) →
      fs.existsPath (suffixedPath parent base ext j) = true := by
    intro j h1 h2
    have := hall j h1 h2
    simpa using this
  set n := fs.entries.length with hn
  have hsub : (Finset.Icc c (c + n)).image (suffixedPath parent base ext)
      ⊆ (fs.entries.map Prod.fst).toFinset := by
    intro q hq
    rcases Finset.mem_image.mp hq with ⟨j, hj, rfl⟩
    rcases Finset.mem_Icc.mp hj with ⟨hj1, hj2⟩
    exact List.mem_toFinset.mpr
      ((existsPath_iff_mem fs _).mp (hex j hj1 (by omega)))
  have hcard1 : ((Finset.Icc c (c + n)).image (suffixedPath parent base ext)).card = n + 1 := by
    rw [Finset.card_image_of_injOn (fun a _ b _ h => suffixedPath_inj parent base ext a b h)]
    rw [Nat.card_Icc]
    omega
  have hcard2 : (fs.entries.map Prod.fst).toFinset.card ≤ n := by
    calc (fs.entries.map Prod.fst).toFinset.card ≤ (fs.entries.map Prod.fst).length :=
          List.toFinset_card_le _
      _ = n := by simp [hn]
  have := Finset.card_le_card hsub
  omega

theorem uniqueLoop_spec (fs : FS) (parent : FsPath) (base ext : String) :
    ∀ fuel c, (∃ j, c ≤ j ∧ j < c + fuel ∧
        fs.existsPath (suffixedPath parent base ext j) = false) →
      ∃ k, c ≤ k ∧ uniqueLoop fs parent base ext fuel c = suffixedPath parent base ext k ∧
        fs.existsPath (suffixedPath parent base ext k) = false ∧
        ∀ j, c ≤ j → j < k → fs.existsPath (suffixedPath parent base ext j) = true := by
  intro fuel
  induction fuel with
  | zero =>
    rintro c ⟨j, h1, h2, _⟩
    omega
  | succ f ih =>
    rintro c ⟨j, h1, h2, hfree⟩
    by_cases hc : fs.existsPath (suffixedPath parent base ext c) = true
    · have hjc : j ≠ c := by
        intro hjc; rw [hjc] at hfree; rw [hfree] at hc; exact Bool.false_ne_true hc
      have hrec := ih (c + 1) ⟨j, by omega, by omega, hfree⟩
      rcases hrec with ⟨k, hk1, hk2, hk3, hk4⟩
      refine ⟨k, by omega, ?_, hk3, ?_⟩
      · simpa [uniqueLoop, hc] using hk2
      · intro i hi1 hi2
        by_cases hic : i = c
        · rwa [hic]
        · exact hk4 i (by omega) hi2
    · refine ⟨c, le_refl c, ?_, by simpa using hc, by omega⟩
      simp [uniqueLoop, hc]

theorem get_unique_spec (fs : FS) (p : FsPath) (h : fs.existsPath p = true) :
    ∃ k, 1 ≤ k ∧
      get_unique_output_path fs p
        = suffixedPath p.dropLast (FsPath.stem p) (FsPath.suffix p) k ∧
      fs.existsPath (suffixedPath p.dropLast (FsPath.stem p) (FsPath.suffix p) k) = false ∧
      ∀ j, 1 ≤ j → j < k →
        fs.existsPath (suffixedPath p.dropLast (FsPath.stem p) (FsPath.suffix p) j) = true := by
  have hex := exists_free_suffixed fs p.dropLast (FsPath.stem p) (FsPath.suffix p) 1
  have := uniqueLoop_spec fs p.dropLast (FsPath.stem p) (FsPath.suffix p)
    (fs.entries.length + 1) 1 hex
  rcases this with ⟨k, hk1, hk2, hk3, hk4⟩
  refine ⟨k, hk1, ?_, hk3, hk4⟩
  rw [get_unique_output_path, if_pos h]
  exact hk2

theorem get_unique_fresh (fs : FS) (p : FsPath) :
    fs.existsPath (get_unique_output_path fs p) = false := by
  by_cases h : fs.existsPath p = true
  · rcases get_unique_spec fs p h with ⟨k, _, hk2, hk3, _⟩
    rw [hk2]; exact hk3
  · rw [get_unique_output_path, if_neg h]
    simpa using h

/-! ### Directory creation only affects shorter paths -/

theorem ancestorsOf_length_le {d q : FsPath} (h : q ∈ FS.ancestorsOf d) :
    q.length ≤ d.length := by
  rcases List.mem_map.mp h with ⟨i, _, rfl⟩
  simp [List.length_take]

theorem existsPath_mkdirParents_long (fs : FS) (d q : FsPath)
    (h : d.length < q.length) :
    (fs.mkdirParents d).existsPath q = fs.existsPath q := by
  show (fs.entries ++ _).any _ = fs.entries.any _
  rw [List.any_append]
  have hfalse : (((FS.ancestorsOf d).filter (fun a => !(fs.existsPath a))).map
      (fun a => (a, EntryKind.dir))).any (fun e => e.1 == q) = false := by
    rw [List.any_eq_false]
    rintro ⟨a, k⟩ hm
    rcases List.mem_map.mp hm with ⟨b, hb, hba⟩
    have hb2 : b ∈ FS.ancestorsOf d := List.mem_of_mem_filter hb
    have hlen : b.length ≤ d.length := ancestorsOf_length_le hb2
    cases hba
    simp only [beq_iff_eq]
    intro hqa
    subst hqa
    omega
  rw [hfalse, Bool.or_false]

/-- The result of the collision loop is determined by the existence checks
it performs: two filesystem states agreeing on every path of the candidate's
length resolve the candidate identically. -/
theorem get_unique_congr (fs fs' : FS) (p : FsPath) (hp : p ≠ [])
    (h : ∀ q : FsPath, q.length = p.length → fs'.existsPath q = fs.existsPath q) :
    get_unique_output_path fs' p = get_unique_output_path fs p := by
  have hplen : 0 < p.length := List.length_pos.mpr hp
  have hsfxlen : ∀ k, (suffixedPath p.dropLast (FsPath.stem p) (FsPath.suffix p) k).length
      = p.length := by
    intro k
    simp only [suffixedPath, List.length_append, List.length_dropLast, List.length_cons,
      List.length_nil]
    omega
  have hp' := h p rfl
  by_cases hex : fs.existsPath p = true
  · have hex' : fs'.existsPath p = true := by rw [hp', hex]
    rcases get_unique_spec fs p hex with ⟨k, hk1, hk2, hk3, hk4⟩
    rcases get_unique_spec fs' p hex' with ⟨k', hk1', hk2', hk3', hk4'⟩
    have hkk : k' = k := by
      rcases Nat.lt_trichotomy k' k with hlt | heq | hgt
      · have := hk4 k' hk1' hlt
        rw [← h _ (hsfxlen k')] at this
        rw [hk3'] at this
        exact absurd this (by simp)
      · exact heq
      · have := hk4' k hk1 hgt
        rw [h _ (hsfxlen k)] at this
        rw [hk3] at this
        exact absurd this (by simp)
    rw [hk2, hk2', hkk]
  · have hex' : ¬ fs'.existsPath p = true := by
      rw [hp']; exact hex
    rw [get_unique_output_path, get_unique_output_path, if_neg hex', if_neg hex]

theorem outputCandidate_ne_nil (file base outdir : FsPath) :
    outputCandidate file base outdir ≠ [] := by
  unfold outputCandidate FsPath.withMd
  split
  · intro h
    rcases List.append_eq_nil.mp h with ⟨-, h2⟩
    rcases List.append_eq_nil.mp h2 with ⟨-, h3⟩
    exact List.cons_ne_nil _ _ h3
  · intro h
    rcases List.append_eq_nil.mp h with ⟨-, h2⟩
    exact List.cons_ne_nil _ _ h2

/-- C4: collision resolution returns the candidate when nothing exists
there; otherwise the candidate with `_k` inserted before the extension for
the smallest `k ≥ 1` whose suffixed path is free; and the returned path
never names a pre-existing entry. -/
theorem collision_resolution_correct (fs : FS) (p : FsPath) :
    (fs.existsPath p = false → get_unique_output_path fs p = p)
    ∧ (fs.existsPath p = true →
        ∃ k, 1 ≤ k
          ∧ get_unique_output_path fs p
              = suffixedPath p.dropLast (FsPath.stem p) (FsPath.suffix p) k
          ∧ fs.existsPath (suffixedPath p.dropLast (FsPath.stem p) (FsPath.suffix p) k) = false
          ∧ ∀ j, 1 ≤ j → j < k →
              fs.existsPath (suffixedPath p.dropLast (FsPath.stem p) (FsPath.suffix p) j) = true)
    ∧ fs.existsPath (get_unique_output_path fs p) = false := by
  refine ⟨?_, get_unique_spec fs p, get_unique_fresh fs p⟩
  intro h
  rw [get_unique_output_path, if_neg (by simp [h])]

/-- Filesystem for the collision-resolution witnesses: `out/a.md` and
`out/a_1.md` already exist. -/
def fsColl : FS := ⟨[(["out", "a.md"], EntryKind.file), (["out", "a_1.md"], EntryKind.file)]⟩

/-- Witness for C4 at a filesystem where the candidate and its `_1` variant
exist: the loop must pick `_2`. -/
theorem collision_resolution_correct_witness :
    ∃ k, 1 ≤ k
      ∧ get_unique_output_path fsColl ["out", "a.md"]
          = suffixedPath (["out", "a.md"] : FsPath).dropLast
              (FsPath.stem ["out", "a.md"]) (FsPath.suffix ["out", "a.md"]) k
      ∧ fsColl.existsPath (suffixedPath (["out", "a.md"] : FsPath).dropLast
              (FsPath.stem ["out", "a.md"]) (FsPath.suffix ["out", "a.md"]) k) = false
      ∧ ∀ j, 1 ≤ j → j < k →
          fsColl.existsPath (suffixedPath (["out", "a.md"] : FsPath).dropLast
              (FsPath.stem ["out", "a.md"]) (FsPath.suffix ["out", "a.md"]) j) = true :=
  (collision_resolution_correct fsColl ["out", "a.md"]).2.1 (by decide)

/-- C8: on any filesystem state (which holds finitely many entries by
construction), the collision loop terminates: some counter value `k ≥ 1` has
a free suffixed path, and when the candidate exists the function returns the
suffixed path of such a `k`. -/
theorem collision_loop_terminates (fs : FS) (p : FsPath)
    (h : fs.existsPath p = true) :
    ∃ k, 1 ≤ k
      ∧ fs.existsPath (suffixedPath p.dropLast (FsPath.stem p) (FsPath.suffix p) k) = false
      ∧ get_unique_output_path fs p
          = suffixedPath p.dropLast (FsPath.stem p) (FsPath.suffix p) k := by
  rcases get_unique_spec fs p h with ⟨k, hk1, hk2, hk3, -⟩
  exact ⟨k, hk1, hk3, hk2⟩

/-- Witness for C8: the loop terminates on a concrete collision. -/
theorem collision_loop_terminates_witness :
    ∃ k, 1 ≤ k
      ∧ fsColl.existsPath (suffixedPath (["out", "a_1.md"] : FsPath).dropLast
          (FsPath.stem ["out", "a_1.md"]) (FsPath.suffix ["out", "a_1.md"]) k) = false
      ∧ get_unique_output_path fsColl ["out", "a_1.md"]
          = suffixedPath (["out", "a_1.md"] : FsPath).dropLast
              (FsPath.stem ["out", "a_1.md"]) (FsPath.suffix ["out", "a_1.md"]) k :=
  collision_loop_terminates fsColl ["out", "a_1.md"] (by decide)

/-- C7: resolving the output path twice for the same file and output
directory, with no intervening write, returns the same path: the directory
creation performed by the first call only adds entries at paths shorter than
every path the collision check inspects. -/
theorem output_path_resolution_idempotent (fs : FS) (file base outdir : FsPath) :
    (get_output_path (get_output_path fs file base outdir).2 file base outdir).1
      = (get_output_path fs file base outdir).1 := by
  have hne := outputCandidate_ne_nil file base outdir
  show get_unique_output_path
      ((fs.mkdirParents (outputCandidate file base outdir).dropLast).mkdirParents
        (outputCandidate file base outdir).dropLast)
      (outputCandidate file base outdir)
    = get_unique_output_path (fs.mkdirParents (outputCandidate file base outdir).dropLast)
      (outputCandidate file base outdir)
  apply get_unique_congr _ _ _ hne
  intro q hq
  apply existsPath_mkdirParents_long
  have h1 : 0 < (outputCandidate file base outdir).length := List.length_pos.mpr hne
  have h2 := List.length_dropLast (outputCandidate file base outdir)
  omega

/-! ### Output-path structure preservation (C5) -/

theorem output_path_structure (fs : FS) (file base outdir : FsPath) :
    (base.isPrefixOf file = true → base ≠ file →
      fs.existsPath (outdir ++ ((file.drop base.length).dropLast
          ++ [FsPath.stem (file.drop base.length) ++ ".md"])) = false →
      (get_output_path fs file base outdir).1
        = outdir ++ ((file.drop base.length).dropLast
            ++ [FsPath.stem (file.drop base.length) ++ ".md"]))
    ∧ (¬(base.isPrefixOf file = true ∧ base ≠ file) →
      fs.existsPath (outdir ++ [FsPath.stem file ++ ".md"]) = false →
      (get_output_path fs file base outdir).1
        = outdir ++ [FsPath.stem file ++ ".md"]) := by
  constructor
  · intro h1 h2 hfree
    have hcond : (base.isPrefixOf file && !(base == file)) = true := by
      simp [h1, beq_iff_eq, h2]
    have hcand : outputCandidate file base outdir
        = outdir ++ ((file.drop base.length).dropLast
            ++ [FsPath.stem (file.drop base.length) ++ ".md"]) := by
      rw [outputCandidate, if_pos hcond]
      rfl
    show get_unique_output_path _ (outputCandidate file base outdir) = _
    rw [hcand]
    set target := outdir ++ ((file.drop base.length).dropLast
        ++ [FsPath.stem (file.drop base.length) ++ ".md"]) with htarget
    have hne : target ≠ [] := by
      apply List.ne_nil_of_length_pos
      simp [htarget]
    have hex : (fs.mkdirParents target.dropLast).existsPath target = false := by
      rw [existsPath_mkdirParents_long]
      · exact hfree
      · have := List.length_dropLast target
        have := List.length_pos.mpr hne
        omega
    rw [get_unique_output_path, if_neg (by simp [hex])]
  · intro h1 hfree
    have hcond : (base.isPrefixOf file && !(base == file)) = false := by
      rcases Bool.eq_false_or_eq_true (base.isPrefixOf file) with hb | hb
      · have heq : base = file := by
          by_contra hne
          exact h1 ⟨hb, hne⟩
        simp [heq]
      · simp [hb]
    have hcand : outputCandidate file base outdir
        = outdir ++ [FsPath.stem file ++ ".md"] := by
      rw [outputCandidate, if_neg (by simp [hcond])]
      rfl
    show get_unique_output_path _ (outputCandidate file base outdir) = _
    rw [hcand]
    set target := outdir ++ [FsPath.stem file ++ ".md"] with htarget
    have hne : target ≠ [] := by
      apply List.ne_nil_of_length_pos
      simp [htarget]
    have hex : (fs.mkdirParents target.dropLast).existsPath target = false := by
      rw [existsPath_mkdirParents_long]
      · exact hfree
      · have := List.length_dropLast target
        have := List.length_pos.mpr hne
        omega
    rw [get_unique_output_path, if_neg (by simp [hex])]

/-- Filesystem for the structure-preservation witness: a `docs/x/y.pdf`
tree and nothing under `out`. -/
def fsDocs : FS :=
  ⟨[(["docs"], EntryKind.dir), (["docs", "x"], EntryKind.dir),
    (["docs", "x", "y.pdf"], EntryKind.file)]⟩

/-- Witness for C5, the example from the spec: inputBase `/docs`, outputDir
`/out`, file `/docs/x/y.pdf` resolves to `/out/x/y.md`. -/
theorem output_path_structure_witness :
    (get_output_path fsDocs ["docs", "x", "y.pdf"] ["docs"] ["out"]).1
      = ["out", "x", "y.md"] := by
  have h := (output_path_structure fsDocs ["docs", "x", "y.pdf"] ["docs"] ["out"]).1
    (by decide) (by decide) (by decide)
  rw [h]
  decide

/-! ### File discovery (C6, C10) -/

theorem collectLoop_spec (fs : FS) :
    ∀ (inputs : List FsPath) (files : List FsPath) (events : List ProgressEvent),
      collectLoop fs inputs files events
        = (files ++ inputs.flatMap (fun p => (collectOne fs p).1),
           events ++ inputs.flatMap (fun p => (collectOne fs p).2)) := by
  intro inputs
  induction inputs with
  | nil => intro files events; simp [collectLoop]
  | cons p rest ih =>
    intro files events
    simp only [collectLoop, ih, List.flatMap_cons, List.append_assoc]

theorem collectOne_mem_isFile (fs : FS) (p q : FsPath)
    (h : q ∈ (collectOne fs p).1) :
    fs.isFile q = true ∧ isSupported q = true := by
  by_cases hf : fs.isFile p = true
  · by_cases hs : isSupported p = true
    · have : q = p := by
        simpa [collectOne, hf, hs] using h
      subst this
      exact ⟨hf, hs⟩
    · simp [collectOne, hf, hs] at h
  · by_cases hd : fs.isDir p = true
    · have h2 : q ∈ (fs.rglob p).filter (fun q => fs.isFile q && isSupported q) := by
        simpa [collectOne, hf, hd] using h
      have := List.of_mem_filter h2
      exact ⟨by simpa using (Bool.and_eq_true _ _ |>.mp this).1,
        by simpa using (Bool.and_eq_true _ _ |>.mp this).2⟩
    · simp [collectOne, hf, hd] at h

/-- C6: discovery returns, in input order, each explicitly named supported
regular file plus the supported regular files below each directory input
(in enumeration order); an explicitly named unsupported file produces a
warning event and nothing else, directory traversal produces no events, and
everything returned is a supported regular file (extension compared
lowercased against the supported set) — never a directory. -/
theorem discovery_correct (fs : FS) (inputs : List FsPath) :
    collect_files fs inputs
      = (inputs.flatMap (fun p => (collectOne fs p).1),
         inputs.flatMap (fun p => (collectOne fs p).2))
    ∧ (∀ p, fs.isFile p = true → isSupported p = true → collectOne fs p = ([p], []))
    ∧ (∀ p, fs.isFile p = true → isSupported p = false →
        collectOne fs p = ([], [unsupportedEvent p]))
    ∧ (∀ p, fs.isFile p = false → fs.isDir p = true →
        collectOne fs p
          = ((fs.rglob p).filter (fun q => fs.isFile q && isSupported q), []))
    ∧ (∀ q, q ∈ (collect_files fs inputs).1 →
        fs.isFile q = true
          ∧ SUPPORTED_EXTENSIONS.contains (lowerString (FsPath.suffix q)) = true) := by
  refine ⟨by simpa using collectLoop_spec fs inputs [] [], ?_, ?_, ?_, ?_⟩
  · intro p hf hs; simp [collectOne, hf, hs]
  · intro p hf hs; simp [collectOne, hf, hs]
  · intro p hf hd; simp [collectOne, hf, hd]
  · intro q hq
    rw [collect_files, collectLoop_spec fs inputs [] [], List.nil_append] at hq
    rcases List.mem_flatMap.mp hq with ⟨p, _, hmem⟩
    exact collectOne_mem_isFile fs p q hmem

/-- Filesystem for the discovery witness: an explicit supported file, an
explicit unsupported file, and a directory holding a supported file, an
unsupported file in a subdirectory, and a sub-subdirectory. -/
def fsDisc : FS :=
  ⟨[(["r", "a.pdf"], EntryKind.file), (["r", "c.txt"], EntryKind.file),
    (["d"], EntryKind.dir), (["d", "b.DOCX"], EntryKind.file),
    (["d", "sub"], EntryKind.dir), (["d", "sub", "n.log"], EntryKind.file)]⟩

/-- Witness for C6 on a mixed input list: the supported explicit file and
the directory's supported file are returned in input order, the unsupported
explicit file warns, and the unsupported file inside the directory is
silently skipped. -/
theorem discovery_correct_witness :
    collect_files fsDisc [["r", "a.pdf"], ["r", "c.txt"], ["d"]]
      = ([["r", "a.pdf"], ["d", "b.DOCX"]],
         [unsupportedEvent ["r", "c.txt"]])
    ∧ fsDisc.isFile ["d"] = false := by
  constructor
  · rw [(discovery_correct fsDisc [["r", "a.pdf"], ["r", "c.txt"], ["d"]]).1]
    decide
  · decide

/-- C10: an input path that exists but is neither a regular file nor a
directory is handled exactly like a nonexistent one: discovery emits the
`Path does not exist` error event and contributes no files. -/
theorem nonregular_input_like_missing (fs : FS) (p : FsPath)
    (h : fs.kindOf p = some EntryKind.other ∨ fs.kindOf p = none) :
    collectOne fs p = ([], [missingEvent p]) := by
  have hf : fs.isFile p = false := by
    rcases h with h | h <;> simp [FS.isFile, h]
  have hd : fs.isDir p = false := by
    rcases h with h | h <;> simp [FS.isDir, h]
  simp [collectOne, hf, hd]

/-- Filesystem for the C10 witness: a named pipe at `fifo`. -/
def fsPipe : FS := ⟨[(["fifo"], EntryKind.other)]⟩

/-- Witness for C10: the pipe input produces exactly the missing-path error
event, the same output as for the genuinely absent path. -/
theorem nonregular_input_like_missing_witness :
    collectOne fsPipe ["fifo"] = ([], [missingEvent ["fifo"]])
    ∧ collectOne (FS.mk []) ["fifo"] = ([], [missingEvent ["fifo"]]) :=
  ⟨nonregular_input_like_missing fsPipe ["fifo"] (by decide),
   nonregular_input_like_missing (FS.mk []) ["fifo"] (by decide)⟩

/-! ### The conversion driver loop -/

theorem processLoop_spec (conv : FsPath → FsPath → Except String Unit)
    (base outdir : FsPath) (total : Nat) :
    ∀ (files : List FsPath) (idx : Nat) (st : LoopState),
      (processLoop conv base outdir total files idx st).results.map ConversionResult.input
          = st.results.map ConversionResult.input ++ files
      ∧ (processLoop conv base outdir total files idx st).successful
            + (processLoop conv base outdir total files idx st).failed
          = st.successful + st.failed + files.length
      ∧ (processLoop conv base outdir total files idx st).results.length
          = st.results.length + files.length
      ∧ ((∀ r ∈ st.results, r.success = false → r.output = none) →
          ∀ r ∈ (processLoop conv base outdir total files idx st).results,
            r.success = false → r.output = none) := by
  intro files
  induction files with
  | nil =>
    intro idx st
    refine ⟨by simp [processLoop], by simp [processLoop], by simp [processLoop], ?_⟩
    intro hin r hr
    exact hin r (by simpa [processLoop] using hr)
  | cons f rest ih =>
    intro idx st
    simp only [processLoop]
    split
    · rcases ih (idx + 1)
        { successful := st.successful + 1
          failed := st.failed
          results := st.results ++ [⟨f, some (get_output_path st.fs f base outdir).1, true⟩]
          events := st.events ++ [convertingEvent f idx total]
              ++ (convert_file conv (get_output_path st.fs f base outdir).2 f
                    (get_output_path st.fs f base outdir).1).2.2
              ++ [convertedEvent f idx total]
          fs := (convert_file conv (get_output_path st.fs f base outdir).2 f
                    (get_output_path st.fs f base outdir).1).2.1 }
        with ⟨ih1, ih2, ih3, ih4⟩
      refine ⟨?_, ?_, ?_, ?_⟩
      · rw [ih1]; simp
      · rw [ih2]
        show st.successful + 1 + st.failed + rest.length
            = st.successful + st.failed + (f :: rest).length
        simp only [List.length_cons]
        omega
      · rw [ih3]
        show (st.results
            ++ [(⟨f, some (get_output_path st.fs f base outdir).1, true⟩ : ConversionResult)]).length
              + rest.length
            = st.results.length + (f :: rest).length
        simp only [List.length_append, List.length_cons, List.length_nil]
        omega
      · intro hin r hr
        refine ih4 ?_ r hr
        intro r' hr' hfail
        rcases List.mem_append.mp hr' with hold | hnew
        · exact hin r' hold hfail
        · have : r' = ⟨f, some (get_output_path st.fs f base outdir).1, true⟩ := by
            simpa using hnew
          rw [this] at hfail
          exact absurd hfail (by simp)
    · rcases ih (idx + 1)
        { successful := st.successful
          failed := st.failed + 1
          results := st.results ++ [⟨f, none, false⟩]
          events := st.events ++ [convertingEvent f idx total]
              ++ (convert_file conv (get_output_path st.fs f base outdir).2 f
                    (get_output_path st.fs f base outdir).1).2.2
          fs := (convert_file conv (get_output_path st.fs f base outdir).2 f
                    (get_output_path st.fs f base outdir).1).2.1 }
        with ⟨ih1, ih2, ih3, ih4⟩
      refine ⟨?_, ?_, ?_, ?_⟩
      · rw [ih1]; simp
      · rw [ih2]
        show st.successful + (st.failed + 1) + rest.length
            = st.successful + st.failed + (f :: rest).length
        simp only [List.length_cons]
        omega
      · rw [ih3]
        show (st.results ++ [(⟨f, none, false⟩ : ConversionResult)]).length + rest.length
            = st.results.length + (f :: rest).length
        simp only [List.length_append, List.length_cons, List.length_nil]
        omega
      · intro hin r hr
        refine ih4 ?_ r hr
        intro r' hr' hfail
        rcases List.mem_append.mp hr' with hold | hnew
        · exact hin r' hold hfail
        · have : r' = ⟨f, none, false⟩ := by simpa using hnew
          rw [this]

theorem mainRun_empty (conv : FsPath → FsPath → Except String Unit)
    (inputs : List FsPath) (outputArg : FsPath) (fs0 : FS)
    (h : (collect_files (fs0.mkdirParents outputArg) inputs).1 = []) :
    mainRun conv inputs outputArg fs0
      = ⟨[startingEvent] ++ (collect_files (fs0.mkdirParents outputArg) inputs).2
            ++ [noFilesEvent],
         none, 1, fs0.mkdirParents outputArg⟩ := by
  simp only [mainRun]
  rw [h]

theorem mainRun_nonempty (conv : FsPath → FsPath → Except String Unit)
    (inputs : List FsPath) (outputArg : FsPath) (fs0 : FS)
    (f : FsPath) (rest : List FsPath)
    (h : (collect_files (fs0.mkdirParents outputArg) inputs).1 = f :: rest) :
    mainRun conv inputs outputArg fs0
      = ⟨[startingEvent] ++ (collect_files (fs0.mkdirParents outputArg) inputs).2
            ++ [readyEvent (f :: rest).length]
            ++ (processLoop conv
                  (computeInputBase (fs0.mkdirParents outputArg) inputs (f :: rest))
                  outputArg (f :: rest).length (f :: rest) 1
                  ⟨0, 0, [], [], fs0.mkdirParents outputArg⟩).events,
         some ⟨(processLoop conv
                  (computeInputBase (fs0.mkdirParents outputArg) inputs (f :: rest))
                  outputArg (f :: rest).length (f :: rest) 1
                  ⟨0, 0, [], [], fs0.mkdirParents outputArg⟩).successful,
               (processLoop conv
                  (computeInputBase (fs0.mkdirParents outputArg) inputs (f :: rest))
                  outputArg (f :: rest).length (f :: rest) 1
                  ⟨0, 0, [], [], fs0.mkdirParents outputArg⟩).failed,
               (f :: rest).length,
               (processLoop conv
                  (computeInputBase (fs0.mkdirParents outputArg) inputs (f :: rest))
                  outputArg (f :: rest).length (f :: rest) 1
                  ⟨0, 0, [], [], fs0.mkdirParents outputArg⟩).results⟩,
         0,
         (processLoop conv
            (computeInputBase (fs0.mkdirParents outputArg) inputs (f :: rest))
            outputArg (f :: rest).length (f :: rest) 1
            ⟨0, 0, [], [], fs0.mkdirParents outputArg⟩).fs⟩ := by
  simp only [mainRun]
  rw [h]

/-! ### Batch-level claims (C1, C2, C3, C9) -/

/-- C1: whenever a run reaches the final summary, `successful + failed =
total = number of discovered files`, and the results list holds exactly one
entry per discovered file, in discovery order. -/
theorem summary_invariant (conv : FsPath → FsPath → Except String Unit)
    (inputs : List FsPath) (outputArg : FsPath) (fs0 : FS) (s : BatchSummary)
    (h : (mainRun conv inputs outputArg fs0).summary = some s) :
    s.successful + s.failed = s.total
    ∧ s.total = (collect_files (fs0.mkdirParents outputArg) inputs).1.length
    ∧ s.results.map ConversionResult.input
        = (collect_files (fs0.mkdirParents outputArg) inputs).1 := by
  rcases hcol : (collect_files (fs0.mkdirParents outputArg) inputs).1 with - | ⟨f, rest⟩
  · rw [mainRun_empty conv inputs outputArg fs0 hcol] at h
    exact absurd h (by simp)
  · rw [mainRun_nonempty conv inputs outputArg fs0 f rest hcol] at h
    have hs := (Option.some_inj.mp h).symm
    subst hs
    rcases processLoop_spec conv
        (computeInputBase (fs0.mkdirParents outputArg) inputs (f :: rest)) outputArg
        (f :: rest).length (f :: rest) 1
        ⟨0, 0, [], [], fs0.mkdirParents outputArg⟩ with ⟨h1, h2, -, -⟩
    refine ⟨?_, rfl, ?_⟩
    · simpa using h2
    · simpa using h1

/-- The three-file batch of the failure-isolation scenario: a directory
`in` holding `a.pdf`, `b.pdf`, `c.pdf`. -/
def fsBatch : FS :=
  ⟨[(["in"], EntryKind.dir), (["in", "a.pdf"], EntryKind.file),
    (["in", "b.pdf"], EntryKind.file), (["in", "c.pdf"], EntryKind.file)]⟩

/-- Converter oracle that fails exactly on the second file of `fsBatch`. -/
def convBoom : FsPath → FsPath → Except String Unit :=
  fun p _ => if p == ["in", "b.pdf"] then Except.error "boom" else Except.ok ()

/-- The summary the scenario run must produce. -/
def summaryBatch : BatchSummary :=
  ⟨2, 1, 3,
   [⟨["in", "a.pdf"], some ["out", "a.md"], true⟩,
    ⟨["in", "b.pdf"], none, false⟩,
    ⟨["in", "c.pdf"], some ["out", "c.md"], true⟩]⟩

/-- Witness for C1 on the concrete three-file run. -/
theorem summary_invariant_witness :
    summaryBatch.successful + summaryBatch.failed = summaryBatch.total
    ∧ summaryBatch.total = (collect_files (fsBatch.mkdirParents ["out"]) [["in"]]).1.length
    ∧ summaryBatch.results.map ConversionResult.input
        = (collect_files (fsBatch.mkdirParents ["out"]) [["in"]]).1 :=
  summary_invariant convBoom [["in"]] ["out"] fsBatch summaryBatch (by decide)

/-- C2: every discovered file whose conversion or output write fails is
recorded as `ConversionResult{input, "", false}` and processing continues:
the results list always covers every discovered file.  In particular, in a
three-file batch where only the second conversion fails, the summary is
`successful=2, failed=1, total=3` and the third file's result is present and
successful. -/
theorem failure_isolation :
    (∀ (conv : FsPath → FsPath → Except String Unit) (inputs : List FsPath)
        (outputArg : FsPath) (fs0 : FS) (s : BatchSummary),
      (mainRun conv inputs outputArg fs0).summary = some s →
      s.results.length = (collect_files (fs0.mkdirParents outputArg) inputs).1.length
        ∧ ∀ r ∈ s.results, r.success = false → r.output = none)
    ∧ (mainRun convBoom [["in"]] ["out"] fsBatch).summary = some summaryBatch := by
  constructor
  · intro conv inputs outputArg fs0 s h
    rcases hcol : (collect_files (fs0.mkdirParents outputArg) inputs).1 with - | ⟨f, rest⟩
    · rw [mainRun_empty conv inputs outputArg fs0 hcol] at h
      exact absurd h (by simp)
    · rw [mainRun_nonempty conv inputs outputArg fs0 f rest hcol] at h
      have hs := (Option.some_inj.mp h).symm
      subst hs
      rcases processLoop_spec conv
          (computeInputBase (fs0.mkdirParents outputArg) inputs (f :: rest)) outputArg
          (f :: rest).length (f :: rest) 1
          ⟨0, 0, [], [], fs0.mkdirParents outputArg⟩ with ⟨-, -, h3, h4⟩
      refine ⟨by simpa using h3, ?_⟩
      intro r hr
      exact h4 (by simp) r hr
  · decide

/-- Witness for C2's universally quantified part, discharged on the
concrete three-file run. -/
theorem failure_isolation_witness :
    summaryBatch.results.length
        = (collect_files (fsBatch.mkdirParents ["out"]) [["in"]]).1.length
    ∧ ∀ r ∈ summaryBatch.results, r.success = false → r.output = none :=
  failure_isolation.1 convBoom [["in"]] ["out"] fsBatch summaryBatch failure_isolation.2

/-- C3: the run fails — no summary, exit status 1, last event the
fatal-classified error — exactly when discovery found zero supported files;
with at least one discovered file it always ends in a summary, whatever the
converter oracle does. -/
theorem run_fails_iff_no_files (conv : FsPath → FsPath → Except String Unit)
    (inputs : List FsPath) (outputArg : FsPath) (fs0 : FS) :
    ((mainRun conv inputs outputArg fs0).summary = none
      ↔ (collect_files (fs0.mkdirParents outputArg) inputs).1 = [])
    ∧ ((mainRun conv inputs outputArg fs0).exitCode ≠ 0
      ↔ (collect_files (fs0.mkdirParents outputArg) inputs).1 = [])
    ∧ ((collect_files (fs0.mkdirParents outputArg) inputs).1 = [] →
        (mainRun conv inputs outputArg fs0).events.getLast? = some noFilesEvent) := by
  rcases hcol : (collect_files (fs0.mkdirParents outputArg) inputs).1 with - | ⟨f, rest⟩
  · rw [mainRun_empty conv inputs outputArg fs0 hcol]
    refine ⟨by simp, by simp, ?_⟩
    intro _
    show (([startingEvent] ++ (collect_files (fs0.mkdirParents outputArg) inputs).2)
        ++ [noFilesEvent]).getLast? = some noFilesEvent
    rw [List.getLast?_concat]
  · rw [mainRun_nonempty conv inputs outputArg fs0 f rest hcol]
    exact ⟨by simp, by simp, by simp⟩

/-- Witness for C3: a run whose single input does not exist discovers no
files and ends with no summary and exit status 1; the three-file run ends
with a summary. -/
theorem run_fails_iff_no_files_witness :
    ((mainRun convBoom [["nope"]] ["out"] fsBatch).summary = none
      ∧ (mainRun convBoom [["nope"]] ["out"] fsBatch).exitCode ≠ 0)
    ∧ (mainRun convBoom [["in"]] ["out"] fsBatch).summary ≠ none :=
  ⟨⟨(run_fails_iff_no_files convBoom [["nope"]] ["out"] fsBatch).1.mpr (by decide),
    (run_fails_iff_no_files convBoom [["nope"]] ["out"] fsBatch).2.1.mpr (by decide)⟩,
   fun h => by
    have := (run_fails_iff_no_files convBoom [["in"]] ["out"] fsBatch).1.mp h
    exact absurd this (by decide)⟩

/-- C9: the `Path('.')` fallback in the `input_base` computation is dead:
a run that reaches the summary has a nonempty discovered list, and on a
nonempty list `computeInputBase` returns either the single directory input
or the parent of the first discovered file — never the fallback branch's
value by way of that branch. -/
theorem input_base_fallback_unreachable :
    (∀ (conv : FsPath → FsPath → Except String Unit) (inputs : List FsPath)
        (outputArg : FsPath) (fs0 : FS),
      (mainRun conv inputs outputArg fs0).summary.isSome = true →
      (collect_files (fs0.mkdirParents outputArg) inputs).1 ≠ [])
    ∧ (∀ (fs : FS) (inputs : List FsPath) (f : FsPath) (rest : List FsPath),
      computeInputBase fs inputs (f :: rest)
        = if inputs.length = 1 && fs.isDir (inputs.headD []) then inputs.headD []
          else f.dropLast) := by
  constructor
  · intro conv inputs outputArg fs0 hsome hcol
    rw [mainRun_empty conv inputs outputArg fs0 hcol] at hsome
    simp at hsome
  · intro fs inputs f rest
    unfold computeInputBase
    split
    · rfl
    · rfl

/-- Witness for C9 on the three-file run: discovery is nonempty, and the
input-base computation picks the single directory input. -/
theorem input_base_fallback_unreachable_witness :
    (collect_files (fsBatch.mkdirParents ["out"]) [["in"]]).1 ≠ []
    ∧ computeInputBase (fsBatch.mkdirParents ["out"]) [["in"]]
        (["in", "a.pdf"] :: [["in", "b.pdf"], ["in", "c.pdf"]])
      = (if ([[("in" : String)]] : List FsPath).length = 1
            && (fsBatch.mkdirParents ["out"]).isDir ([[("in" : String)]].headD [])
         then ([[("in" : String)]] : List FsPath).headD []
         else (["in", "a.pdf"] : FsPath).dropLast) :=
  ⟨input_base_fallback_unreachable.1 convBoom [["in"]] ["out"] fsBatch (by decide),
   input_base_fallback_unreachable.2 (fsBatch.mkdirParents ["out"]) [["in"]]
     ["in", "a.pdf"] [["in", "b.pdf"], ["in", "c.pdf"]]⟩
